import Mathlib

/-!
Verification of the `ape-llamapay-sdk` core (`llamapay/llamapay.py`) against its
natural-language specification.

The Python source is shallowly embedded:

* Byte strings are `List Nat` (each entry a byte value `< 256`).
* `eth_utils.keccak` is embedded as a full executable Keccak-256 over byte lists
  (lanes are 64-bit words represented as `Nat` reduced mod `2 ^ 64`).
* `eth_abi.packed.encode_abi_packed(["address", "address", "uint216"], ...)` is the
  concatenation of the 20-byte big-endian address bytes and the 27-byte big-endian
  encoding of the rate.
* `Pool` cache state (`_logs`, `_last_logs_block`, `_streams`) is a `PoolState`
  record; methods that mutate it and may raise are functions
  `PoolState → Except Err α × PoolState` sequenced step by step in source order, so
  that a raised exception keeps every mutation made before the raise (Python
  exception semantics).  The external collaborators (chain height, the materialised
  result of `provider.get_contract_logs`, the name-service `convert`) are explicit
  parameters.
* `decimal.Decimal` values produced by the SDK are finite decimal numbers,
  embedded as a scaled integer pair `Dec` (value `num / 10 ^ shift`).  The
  constructor is exact (its stored digits come from the input alone), while the
  arithmetic operators round their result to CPython's default context: 28
  significant digits, round-half-even.  That rounding is a function of the exact
  result's value (the rounding position is the 28th significant digit, which is
  representation independent), so it is embedded value-level by `roundSigInt` /
  `Dec.divCtx`, and `int()` truncates the stored value toward zero.  Special
  values (`NaN`, `Infinity`, also spelled with underscores such as `in_f`) and
  non-ASCII digits, which CPython's constructor also accepts and which denote no
  rational, are outside the model; the parser theorem is stated on the
  complementary domain (`amount_side_tame`).
-/

namespace LlamaPay

/-! ## Keccak-256 (embedding of `eth_utils.keccak`) -/

/-- Keccak rotation offsets, indexed by `x + 5 * y` (one row of five per line). -/
def ROTS : List Nat :=
  [0, 1, 62, 28, 27] ++
  [36, 44, 6, 55, 20] ++
  [3, 10, 43, 25, 39] ++
  [41, 45, 15, 21, 8] ++
  [18, 2, 61, 56, 14]

/-- Keccak-f[1600] round constants (four rounds per line). -/
def RNDC : List Nat :=
  [0x0000000000000001, 0x0000000000008082, 0x800000000000808A, 0x8000000080008000] ++
  [0x000000000000808B, 0x0000000080000001, 0x8000000080008081, 0x8000000000008009] ++
  [0x000000000000008A, 0x0000000000000088, 0x0000000080008009, 0x000000008000000A] ++
  [0x000000008000808B, 0x800000000000008B, 0x8000000000008089, 0x8000000000008003] ++
  [0x8000000000008002, 0x8000000000000080, 0x000000000000800A, 0x800000008000000A] ++
  [0x8000000080008081, 0x8000000000008080, 0x0000000080000001, 0x8000000080008008]

/-- Rotate a 64-bit word (a `Nat` below `2 ^ 64`) left by `k` bits. -/
def rol64 (a k : Nat) : Nat := ((a <<< k) ||| (a >>> (64 - k))) &&& (2 ^ 64 - 1)

/-- Lane `(x, y)` of a 25-lane state, coordinates taken mod 5. -/
def lane (s : List Nat) (x y : Nat) : Nat := s.getD (x % 5 + 5 * (y % 5)) 0

/-- Keccak θ step. -/
def theta (s : List Nat) : List Nat :=
  let c := (List.range 5).map fun x =>
    lane s x 0 ^^^ lane s x 1 ^^^ lane s x 2 ^^^ lane s x 3 ^^^ lane s x 4
  let d := (List.range 5).map fun x =>
    (c.getD ((x + 4) % 5) 0) ^^^ rol64 (c.getD ((x + 1) % 5) 0) 1
  (List.range 25).map fun i => s.getD i 0 ^^^ d.getD (i % 5) 0

/-- Keccak ρ and π steps combined: destination lane `(X, Y)` receives source lane
`((X + 3Y) % 5, X)` rotated by its offset. -/
def rhoPi (s : List Nat) : List Nat :=
  (List.range 25).map fun i =>
    let gx := (i % 5 + 3 * (i / 5)) % 5
    let gy := i % 5
    rol64 (lane s gx gy) (ROTS.getD (gx + 5 * gy) 0)

/-- Keccak χ step. -/
def chi (s : List Nat) : List Nat :=
  (List.range 25).map fun i =>
    lane s i (i / 5) ^^^ ((lane s (i + 1) (i / 5) ^^^ (2 ^ 64 - 1)) &&& lane s (i + 2) (i / 5))

/-- Keccak ι step: XOR the round constant into lane 0. -/
def iotaStep (rc : Nat) (s : List Nat) : List Nat :=
  match s with
  | a :: rest => (a ^^^ rc) :: rest
  | [] => []

/-- One Keccak-f round. -/
def keccakRound (s : List Nat) (rc : Nat) : List Nat := iotaStep rc (chi (rhoPi (theta s)))

/-- The full Keccak-f[1600] permutation (24 rounds). -/
def keccakF (s : List Nat) : List Nat := RNDC.foldl keccakRound s

/-- Lane `i` of a rate block, read little-endian from bytes `8i .. 8i+7`. -/
def bytesToLane (bs : List Nat) (i : Nat) : Nat :=
  (List.range 8).foldl (fun acc j => acc + ((bs.getD (8 * i + j) 0) <<< (8 * j))) 0

/-- Absorb one 136-byte block into the state and permute. -/
def absorbBlock (s : List Nat) (block : List Nat) : List Nat :=
  keccakF ((List.range 25).map fun i => s.getD i 0 ^^^ (if i < 17 then bytesToLane block i else 0))

/-- Keccak (pre-SHA-3) multi-rate padding for rate 136: append `0x01`, zeros, `0x80`. -/
def keccakPad (msg : List Nat) : List Nat :=
  let q := 136 - msg.length % 136
  if q = 1 then msg ++ [0x81]
  else msg ++ [0x01] ++ List.replicate (q - 2) 0 ++ [0x80]

/-- Split a byte list into 136-byte blocks.  The first argument is fuel (always
called with the list length), keeping the recursion structural so the kernel can
evaluate it. -/
def chunksAux : Nat → List Nat → List (List Nat)
  | 0, _ => []
  | _, [] => []
  | n + 1, l => l.take 136 :: chunksAux n (l.drop 136)

/-- Keccak-256 of a byte list: the hash used by `eth_utils.keccak`. -/
def keccak256 (msg : List Nat) : List Nat :=
  let padded := keccakPad msg
  let st := (chunksAux padded.length padded).foldl absorbBlock (List.replicate 25 0)
  (List.range 32).map fun i => (st.getD (i / 8) 0 >>> (8 * (i % 8))) &&& 255

/-! ## ABI tight packing (embedding of `encode_abi_packed`) -/

/-- Value of one hex digit character; non-hex characters (which `eth_abi` would
reject) are mapped to 0 and are outside the model. -/
def hexVal (c : Char) : Nat :=
  if '0' ≤ c ∧ c ≤ '9' then c.toNat - '0'.toNat
  else if 'a' ≤ c ∧ c ≤ 'f' then c.toNat - 'a'.toNat + 10
  else if 'A' ≤ c ∧ c ≤ 'F' then c.toNat - 'A'.toNat + 10
  else 0

/-- Bytes of a hex string, two hex digits per byte. -/
def hexPairs : List Char → List Nat
  | c1 :: c2 :: rest => (16 * hexVal c1 + hexVal c2) :: hexPairs rest
  | _ => []

/-- The 20 bytes denoted by a `0x`-prefixed hex address string: the `address`
encoding of `encode_abi_packed`. -/
def addressBytes (s : String) : List Nat :=
  hexPairs (if s.take 2 == "0x" then (s.drop 2).data else s.data)

/-- Big-endian bytes of `n` in a fixed `width`; `beBytes 27` is the `uint216`
encoding of `encode_abi_packed`. -/
def beBytes (width n : Nat) : List Nat :=
  (List.range width).map fun i => (n >>> (8 * (width - 1 - i))) &&& 255

/-- `encode_abi_packed(["address", "address", "uint216"], [source, target, rate])`:
tight concatenation, no padding. -/
def encode_abi_packed (source target : String) (rate : Nat) : List Nat :=
  addressBytes source ++ addressBytes target ++ beBytes 27 rate

/-! ## Streams (embedding of the `Stream` dataclass) -/

/-- Embedding of the `Stream` dataclass: `source` and `target` are hex address
strings, `rate` the per-second rate scaled by the protocol precision (a `uint216`
on chain, hence `Nat`).  The Python `pool` back-reference carries no data used by
the verified operations and is omitted. -/
structure Stream where
  source : String
  target : String
  rate : Nat
deriving DecidableEq

/-- `Stream.id`: keccak of the tight-packed `(source, target, rate)` triple. -/
def Stream.id (s : Stream) : List Nat :=
  keccak256 (encode_abi_packed s.source s.target s.rate)

/-- A transaction call submitted to the pool contract: method name and arguments
(addresses or numbers), with `tx_args` (sender etc.) handled by the transport and
not part of the call payload. -/
inductive CallArg where
  | addr (a : String)
  | num (n : Nat)
deriving DecidableEq

/-- A contract method invocation. -/
structure ContractCall where
  method : String
  args : List CallArg
deriving DecidableEq

/-- `Stream.pause`: submits `pauseStream(target, rate)`. -/
def Stream.pause (s : Stream) : ContractCall :=
  ⟨"pauseStream", [CallArg.addr s.target, CallArg.num s.rate]⟩

/-- `Stream.cancel`: also submits `pauseStream(target, rate)` (the source has no
separate cancel method on the contract wrapper). -/
def Stream.cancel (s : Stream) : ContractCall :=
  ⟨"pauseStream", [CallArg.addr s.target, CallArg.num s.rate]⟩

/-! ## The pool's stream-ledger cache (embedding of `Pool._refresh_logs` and
`Pool.find_streams`)

`Pool.__init__` seeds the cache with `_logs = []`, `_last_logs_block = deploy_block`
and `_streams = []`.  `_refresh_logs` reads the chain height, fetches the decoded
logs for `[start, head]` (fully materialised by `list(...)` before any mutation),
then mutates the three cache fields in source order.  Exceptions are modelled by
running each statement in a state-plus-exception monad: a failing step aborts the
rest but keeps all mutations already performed. -/

/-- A decoded contract log as `ape` delivers it: event name plus the argument
fields read by `_refresh_logs` (`event_arguments["from"]`, `.to`, `.amountPerSec`).
For the three stream events those fields always exist, so reading them is total. -/
structure ContractLog where
  name : String
  from_ : String
  to_ : String
  amountPerSec : Nat
deriving DecidableEq

/-- The mutable cache of a `Pool`: `_logs`, `_last_logs_block`, `_streams`. -/
structure PoolState where
  logs : List ContractLog
  last_logs_block : Nat
  streams : List Stream
deriving DecidableEq

/-- Errors surfaced by pool operations: a transport failure propagating out of the
log fetch (carrying a numeric code), or the `ValueError` that the spec names
`InvalidQuery`, raised by `find_streams` without filters. -/
inductive Err where
  | fetchFailed (code : Nat)
  | invalidQuery
deriving DecidableEq

/-- One pool computation: runs on the cache, returns a result or a raised error,
plus the cache as left behind (mutations before a raise persist, as in Python). -/
def PoolM (α : Type) : Type := PoolState → Except Err α × PoolState

/-- Return without touching the cache. -/
def pureM {α : Type} (a : α) : PoolM α := fun s => (Except.ok a, s)

/-- Sequencing: on error the continuation is skipped and the state at the raise is
kept. -/
def bindM {α β : Type} (m : PoolM α) (f : α → PoolM β) : PoolM β := fun s =>
  match m s with
  | (Except.ok a, s') => f a s'
  | (Except.error e, s') => (Except.error e, s')

/-- Raise an exception, leaving the cache as it is at the raise point. -/
def raiseM {α : Type} (e : Err) : PoolM α := fun s => (Except.error e, s)

/-- Read `self._last_logs_block`. -/
def getCheckpoint : PoolM Nat := fun s => (Except.ok s.last_logs_block, s)

/-- `self._last_logs_block = n`. -/
def setCheckpoint (n : Nat) : PoolM Unit := fun s =>
  (Except.ok (), { s with last_logs_block := n })

/-- `self._logs.extend(logs)`. -/
def extendLogs (ls : List ContractLog) : PoolM Unit := fun s =>
  (Except.ok (), { s with logs := s.logs ++ ls })

/-- `self._streams.append(st)`. -/
def appendStream (st : Stream) : PoolM Unit := fun s =>
  (Except.ok (), { s with streams := s.streams ++ [st] })

/-- The already-materialised outcome of
`list(provider.get_contract_logs(...))` for the requested range: either the decoded
logs in order, or the transport error the fetch raised.  Running it performs no
cache mutation. -/
def runFetch (f : Except Err (List ContractLog)) : PoolM (List ContractLog) :=
  fun s => (f, s)

/-- The event kinds folded into `_streams`. -/
def streamEventNames : List String := ["StreamCreated", "StreamCreatedWithReason", "StreamModified"]

/-- The `Stream` built from one log:
`Stream(source=log.event_arguments["from"], target=log.to, rate=log.amountPerSec)`. -/
def streamOfLog (l : ContractLog) : Stream := ⟨l.from_, l.to_, l.amountPerSec⟩

/-- The `for log in logs:` loop of `_refresh_logs`: append a stream for every log
whose kind is a stream event.  Reading the fields of a decoded log is total, so
this loop never raises. -/
def foldLogsM : List ContractLog → PoolM Unit
  | [] => pureM ()
  | l :: ls =>
    bindM (if l.name ∈ streamEventNames then appendStream (streamOfLog l) else pureM ())
      (fun _ => foldLogsM ls)

/-- The streams the loop appends, as a pure function. -/
def foldedStreams (ls : List ContractLog) : List Stream :=
  (ls.filter (fun l => l.name ∈ streamEventNames)).map streamOfLog

/-- `Pool._refresh_logs`, statement by statement: read the checkpoint, read the
chain height, stop if `start >= head`, otherwise materialise the fetch, set the
checkpoint to `head + 1`, extend the raw-log cache, and fold the logs into the
stream cache. -/
def refresh (height : Nat) (fetch : Except Err (List ContractLog)) : PoolM Unit :=
  bindM getCheckpoint fun start =>
  if start ≥ height then pureM ()
  else
    bindM (runFetch fetch) fun logs =>
    bindM (setCheckpoint (height + 1)) fun _ =>
    bindM (extendLogs logs) fun _ =>
    foldLogsM logs

/-- `Pool.all_streams`: refresh, then return a snapshot copy of `_streams`. -/
def all_streams (height : Nat) (fetch : Except Err (List ContractLog)) : PoolM (List Stream) :=
  bindM (refresh height fetch) fun _ => fun s => (Except.ok s.streams, s)

/-- Python truthiness of an optional filter string (`if source:`): `None` and the
empty string are falsy. -/
def truthy : Option String → Bool
  | none => false
  | some s => !s.isEmpty

/-- `Pool.find_streams`: resolve truthy filters through the name service, then
filter the refreshed stream list; with neither filter, raise (`InvalidQuery`). -/
def find_streams (height : Nat) (fetch : Except Err (List ContractLog))
    (resolve : String → String) (source target : Option String) : PoolM (List Stream) :=
  let source := if truthy source then source.map resolve else source
  let target := if truthy target then target.map resolve else target
  if truthy source && truthy target then
    bindM (all_streams height fetch) fun all =>
      pureM (all.filter fun s => s.source == source.getD "" && s.target == target.getD "")
  else if truthy source then
    bindM (all_streams height fetch) fun all =>
      pureM (all.filter fun s => s.source == source.getD "")
  else if truthy target then
    bindM (all_streams height fetch) fun all =>
      pureM (all.filter fun s => s.target == target.getD "")
  else raiseM Err.invalidQuery

/-! ## Rates (embedding of the `Rate` dataclass and its parsers)

`llamapay.constants` is part of the repository but not under the analysed sources;
its two constants are fixed here from their attestations: `DURATION_TO_SECONDS`
from the exact values asserted by `tests/test_pool.py::test_duration`, and
`PRECISION = 10 ^ 20` from the source comment on `Stream.rate`
("scaled to 1e20"). -/

/-- Modelled from the spec: the day/week/month/year-to-seconds table of
`llamapay.constants` (year = 360 days, month = 30 days), with the exact values the
repository's tests assert. -/
def DURATION_TO_SECONDS : List (String × Nat) :=
  [("day", 86400), ("week", 604800), ("month", 2592000), ("year", 31104000)]

/-- Seconds in a period; only the four table keys occur (the `Rate.period` field is
`Literal["day", "week", "month", "year"]` in the source). -/
def secondsIn (p : String) : Nat := (DURATION_TO_SECONDS.lookup p).getD 0

/-- Modelled from the spec: the protocol-wide fixed-point precision constant of
`llamapay.constants` (`10 ** 20`, per the source comment "scaled to 1e20"). -/
def PRECISION : ℚ := 10 ^ 20

/-- A finite `decimal.Decimal` value, embedded exactly: the value is
`num / 10 ^ shift`.  CPython's context-precision rounding (28 significant digits)
never loses anything on the values this SDK builds and is not modelled. -/
structure Dec where
  num : Int
  shift : Nat
deriving DecidableEq

/-- The rational denoted by a `Dec`. -/
def Dec.toRat (d : Dec) : ℚ := (d.num : ℚ) / 10 ^ d.shift

/-- Multiplication of a `Decimal` by a non-negative integer (exact). -/
def Dec.mulNat (d : Dec) (k : Nat) : Dec := ⟨d.num * k, d.shift⟩

/-- Python `int()` applied to an exact numeric value: truncation toward zero. -/
def intTrunc (q : ℚ) : Int := if q < 0 then -⌊-q⌋ else ⌊q⌋

/-- Number of decimal digits of `n` (1 for 0).  The first argument is fuel, always
called with `n` itself, keeping the recursion structural for kernel evaluation. -/
def digitCountAux : Nat → Nat → Nat
  | 0, _ => 1
  | fuel + 1, n => if n < 10 then 1 else digitCountAux fuel (n / 10) + 1

/-- Number of decimal digits of a natural number. -/
def digitCount (n : Nat) : Nat := digitCountAux n n

/-- CPython's default decimal context precision. -/
def ctxPrec : Nat := 28

/-- Round an integer at its 28th significant digit, half to even: the value of a
context-rounded exact result whose magnitude places the rounding position inside
the integer.  Used for `Decimal.__mul__`, whose exact product is an integer times
a power of ten. -/
def roundSigInt (a : Int) : Int :=
  let n := a.natAbs
  let dcnt := digitCount n
  if dcnt ≤ ctxPrec then a
  else
    let base := 10 ^ (dcnt - ctxPrec)
    let q := n / base
    let r := n % base
    let q' := if 2 * r > base ∨ (2 * r = base ∧ q % 2 = 1) then q + 1 else q
    a.sign * ((q' * base : Nat) : Int)

/-- The exact product of a `Decimal` and a Python `int` (which `Decimal.__mul__`
converts exactly), before the context rounding. -/
def Dec.mulInt (d : Dec) (k : Int) : Dec := ⟨d.num * k, d.shift⟩

/-- The context rounding applied by `Decimal` multiplication to its exact result:
round the coefficient at 28 significant digits, half to even.  Value-level: the
rounding position is the 28th significant digit of the value, independent of how
many trailing zeros the representation carries. -/
def Dec.ctxRound (d : Dec) : Dec := ⟨roundSigInt d.num, d.shift⟩

/-- `Decimal.__truediv__` by a positive Python `int`: the exact quotient
`d / n` rounded half-even to 28 significant digits.  The quotient is computed with
one extra scaled digit pair (`q0` with 29 or 30 digits plus the sticky remainder
`r0`), then rounded at the 28-digit boundary.  Validated against CPython's
`decimal` on randomized inputs spanning 1 to 42 digit coefficients. -/
def Dec.divCtx (d : Dec) (n : Nat) : Dec :=
  let A := d.num.natAbs
  let B := 10 ^ d.shift * n
  let s : Int := (29 : Int) - digitCount A + digitCount B
  let P := A * 10 ^ s.toNat
  let D := B * 10 ^ (-s).toNat
  let q0 := P / D
  let r0 := P % D
  let k := digitCount q0 - ctxPrec
  let base := 10 ^ k
  let qk := q0 / base
  let rk := q0 % base
  let coeff := if 2 * rk > base ∨ (2 * rk = base ∧ (r0 ≠ 0 ∨ qk % 2 = 1)) then qk + 1 else qk
  let e : Int := (k : Int) - s
  if 0 ≤ e then ⟨d.num.sign * ((coeff * 10 ^ e.toNat : Nat) : Int), 0⟩
  else ⟨d.num.sign * (coeff : Int), (-e).toNat⟩

/-- Python `int()` on a stored `Decimal` value: truncation toward zero, computed
on the coefficient. -/
def Dec.truncInt (d : Dec) : Int := d.num.sign * ((d.num.natAbs / 10 ^ d.shift : Nat) : Int)

/-- Embedding of the `Rate` dataclass. -/
structure Rate where
  amount : Dec
  period : String
  token : Option String := none
  raw_value : Option Int := none
deriving DecidableEq

/-- The value of `int(self.amount * PRECISION / DURATION_TO_SECONDS[self.period])`,
the fallback branch of `Rate.per_sec`: the exact product `amount * 10 ^ 20` is
context-rounded by `__mul__`, the quotient by the period length is context-rounded
by `__truediv__`, and `int()` truncates the stored result toward zero. -/
def Rate.computed_per_sec (r : Rate) : Int :=
  (((r.amount.mulInt (10 ^ 20)).ctxRound).divCtx (secondsIn r.period)).truncInt

/-- `Rate.per_sec`: `self.raw_value or int(...)`.  Python's `or` falls through to
the computed value when `raw_value` is `None` or the (falsy) integer `0`. -/
def Rate.per_sec (r : Rate) : Int :=
  match r.raw_value with
  | some v => if v = 0 then r.computed_per_sec else v
  | none => r.computed_per_sec

/-- `Rate.parse_int`: an integer is an already-scaled per-second raw rate;
`amount = Decimal(rate) * DURATION_TO_SECONDS["month"] / PRECISION` — the exact
`Decimal(rate)` times the month length, context-rounded by `__mul__`, then
context-divided by `10 ^ 20`. -/
def Rate.parse_int (rate : Int) : Rate :=
  { amount := (((Dec.mk rate 0).mulInt (secondsIn "month" : Int)).ctxRound).divCtx (10 ^ 20)
    period := "month"
    token := none
    raw_value := some rate }

/-! ### The decimal-string parser behind `Rate.parse_str`

`rate.split("/")` and `amount.split(maxsplit=2)` work on characters, so the parser
is embedded over `List Char` (Lean's `String.splitOn` is not used).  `Decimal(str)`
accepts, after stripping surrounding whitespace and removing every underscore, an
optional sign, digits with at most one decimal point (at least one digit), and an
optional exponent. -/

/-- Python `str.split(sep)` for a one-character separator: splits at every
occurrence, keeping empty pieces. -/
def splitOnChar (sep : Char) : List Char → List (List Char)
  | [] => [[]]
  | c :: rest =>
    let r := splitOnChar sep rest
    if c = sep then [] :: r
    else
      match r with
      | h :: t => (c :: h) :: t
      | [] => [[c]]

/-- The ASCII characters Python's `str` treats as whitespace (`str.split()`,
`str.strip()`): `\t\n\v\f\r`, the separator controls `\x1c`-`\x1f`, and space.
The Unicode whitespace Python additionally recognises lies outside the ASCII
domain the parser theorem is stated on. -/
def pyWs (c : Char) : Bool :=
  decide ((9 ≤ c.toNat ∧ c.toNat ≤ 13) ∨ (28 ≤ c.toNat ∧ c.toNat ≤ 32))

/-- Python `str.split()` with no separator: runs of whitespace delimit tokens, and
leading/trailing whitespace produces no empty tokens.  `acc` holds the current
token reversed. -/
def wsTokensAux : List Char → List Char → List (List Char)
  | [], acc => if acc = [] then [] else [acc.reverse]
  | c :: rest, acc =>
    if pyWs c then
      if acc = [] then wsTokensAux rest []
      else acc.reverse :: wsTokensAux rest []
    else wsTokensAux rest (c :: acc)

/-- `amount, token = amount.split(maxsplit=2)` wrapped in `try/except ValueError`:
exactly two whitespace tokens unpack into `(amount, token)`; any other shape raises
`ValueError`, which the source catches, keeping the whole string and `token=None`. -/
def splitAmountToken (cs : List Char) : List Char × Option (List Char) :=
  match wsTokensAux cs [] with
  | [a, t] => (a, some t)
  | _ => (cs, none)

/-- Numeric value of a digit list (caller has checked the digits). -/
def digitsVal (cs : List Char) : Nat := cs.foldl (fun a c => 10 * a + (c.toNat - 48)) 0

/-- Leading sign of a numeric literal: `+`, `-`, or none. -/
def splitSign : List Char → Int × List Char
  | '+' :: rest => (1, rest)
  | '-' :: rest => (-1, rest)
  | cs => (1, cs)

/-- Mantissa `digits[.digits]` (either side may be empty, not both): returns the
digit value with the decimal point removed, and the number of fractional digits. -/
def parseMantissa (cs : List Char) : Option (Nat × Nat) :=
  let ip := cs.takeWhile (fun c => c ≠ '.')
  match cs.dropWhile (fun c => c ≠ '.') with
  | [] =>
    if ip ≠ [] ∧ ip.all Char.isDigit then some (digitsVal ip, 0) else none
  | _ :: frac =>
    if (ip ≠ [] ∨ frac ≠ []) ∧ ip.all Char.isDigit ∧ frac.all Char.isDigit then
      some (digitsVal ip * 10 ^ frac.length + digitsVal frac, frac.length)
    else none

/-- Assemble a `Dec` from sign, mantissa value, fractional length and exponent:
the exact value `sign * mant * 10 ^ (e - fracLen)`. -/
def assembleDec (sign : Int) (mant : Nat) (fracLen : Nat) (e : Int) : Dec :=
  if e ≥ (fracLen : Int) then ⟨sign * mant * 10 ^ (e - fracLen).toNat, 0⟩
  else ⟨sign * mant, ((fracLen : Int) - e).toNat⟩

/-- What `Decimal(value)` sees after its preprocessing: surrounding whitespace
stripped, then every underscore removed. -/
def decimalCleaned (cs : List Char) : List Char :=
  (((cs.dropWhile pyWs).reverse.dropWhile pyWs).reverse).filter (fun c => c ≠ '_')

/-- `Decimal(value)` on a (comma-normalised) string: after `decimalCleaned`, parse
`[sign] digits [. digits] [(e|E) [sign] digits]`.  `None` is the
`InvalidOperation` the constructor raises on anything else.  The constructor also
accepts the special-value spellings (`Inf`, `Infinity`, `[s]NaN` plus digits,
case-insensitive) and non-ASCII digits; those inputs denote no rational, are
excluded from the model's domain (see `amount_side_tame`), and are rejected here. -/
def parseDec (cs : List Char) : Option Dec :=
  let cleaned := decimalCleaned cs
  let (sign, body) := splitSign cleaned
  let mantPart := body.takeWhile (fun c => c ≠ 'e' ∧ c ≠ 'E')
  match body.dropWhile (fun c => c ≠ 'e' ∧ c ≠ 'E') with
  | [] =>
    (parseMantissa mantPart).map fun m => assembleDec sign m.1 m.2 0
  | _ :: expPart =>
    let (esign, ed) := splitSign expPart
    if ed ≠ [] ∧ ed.all Char.isDigit then
      (parseMantissa mantPart).map fun m => assembleDec sign m.1 m.2 (esign * digitsVal ed)
    else none

/-- One of the special-value spellings `Decimal(str)` accepts (case-insensitive,
after cleaning): `inf`, `infinity`, `nan`/`snan` with an optional digit payload,
each with an optional sign. -/
def isSpecialForm (cs : List Char) : Bool :=
  let body := (splitSign (cs.map Char.toLower)).2
  body == "inf".data || body == "infinity".data ||
    (body.take 3 == "nan".data && (body.drop 3).all Char.isDigit) ||
    (body.take 4 == "snan".data && (body.drop 4).all Char.isDigit)

/-- Every character is ASCII. -/
def asciiOnly (cs : List Char) : Bool := cs.all fun c => c.toNat < 128

/-- The domain on which the embedded decimal parser coincides with CPython's
`Decimal` constructor: the amount side of the rate string is ASCII (no Unicode
digits or Unicode whitespace) and, after comma normalisation and cleaning, is not
a special-value spelling.  Strings that do not even split into an amount and a
period side fail before the amount is parsed and are unrestricted. -/
def amount_side_tame (rate : String) : Bool :=
  match splitOnChar '/' rate.data with
  | [amountSide, _] =>
    asciiOnly amountSide &&
      !isSpecialForm (decimalCleaned ((splitAmountToken amountSide).1.map
        fun c => if c = ',' then '_' else c))
  | _ => true

/-- The one parse-failure the spec names for string rates.  The source raises
`ValueError` (bad `split("/")` unpack), `AssertionError` (unrecognised period) or
`decimal.InvalidOperation` (bad amount); the spec's error model collapses all of
them into `InvalidRate`. -/
inductive RateError where
  | invalidRate
deriving DecidableEq

/-- `Rate.parse_str`, statement by statement: split on `/` and unpack into
`(amount, period)`; assert the period is a table key; split off an optional token
symbol; normalise `,` to `_`; parse the amount with `Decimal`. -/
def Rate.parse_str (rate : String) : Except RateError Rate :=
  match splitOnChar '/' rate.data with
  | [amountSide, period] =>
    if (DURATION_TO_SECONDS.lookup (String.mk period)).isSome then
      let at_ := splitAmountToken amountSide
      match parseDec (at_.1.map fun c => if c = ',' then '_' else c) with
      | some d => Except.ok ⟨d, String.mk period, at_.2.map String.mk, none⟩
      | none => Except.error RateError.invalidRate
    else Except.error RateError.invalidRate
  | _ => Except.error RateError.invalidRate

/-- The period side of a rate string is recognised: splitting on `/` leaves
exactly an amount side and one of the four period keys. -/
def period_recognized (rate : String) : Bool :=
  match splitOnChar '/' rate.data with
  | [_, period] => (DURATION_TO_SECONDS.lookup (String.mk period)).isSome
  | _ => false

/-- The amount side of a rate string parses as a decimal after the optional token
symbol is split off and thousands separators are normalised away. -/
def amount_parses (rate : String) : Bool :=
  match splitOnChar '/' rate.data with
  | [amountSide, _] =>
    (parseDec ((splitAmountToken amountSide).1.map fun c => if c = ',' then '_' else c)).isSome
  | _ => false

/-! ## Deposits (embedding of `Pool.approve` and `Pool.deposit`)

These methods only issue external calls; the issued call sequence is the
observable behaviour. -/

/-- An external call issued by the deposit path: an ERC-20 `allowance` read, an
ERC-20 `approve`, or the pool's `deposit`. -/
inductive PoolCall where
  | allowanceOf (owner spender : String)
  | approveCall (spender : String) (amount : Dec)
  | depositCall (amount : Dec)
deriving DecidableEq

/-- `Pool.approve`: `2 ** 256 - 1` when no amount is given, else
`amount * self.scale`. -/
def Pool.approve (poolAddr : String) (scale : Nat) (amount : Option Dec) : PoolCall :=
  match amount with
  | none => PoolCall.approveCall poolAddr ⟨2 ^ 256 - 1, 0⟩
  | some a => PoolCall.approveCall poolAddr (a.mulNat scale)

/-- Exact value of Python's `self.token.allowance(...) < amount`: the raw `uint256`
allowance compared against the unscaled `Decimal` amount
(`a < num / 10 ^ shift  ↔  a * 10 ^ shift < num`). -/
def allowanceLtAmount (a : Nat) (d : Dec) : Bool := (a : Int) * 10 ^ d.shift < d.num

/-- `Pool.deposit`: one `allowance` read; an `approve` when the comparison above
holds; then `deposit(amount * self.scale)`. -/
def Pool.deposit (sender poolAddr : String) (scale : Nat) (allowance : Nat)
    (amount : Dec) : List PoolCall :=
  [PoolCall.allowanceOf sender poolAddr]
    ++ (if allowanceLtAmount allowance amount then [Pool.approve poolAddr scale (some amount)]
        else [])
    ++ [PoolCall.depositCall (amount.mulNat scale)]

end LlamaPay

deriving instance DecidableEq for Except

namespace LlamaPay

/-! ## Theorems -/

/-- C10: `Stream.cancel` submits exactly the same contract call as `Stream.pause`
— both invoke `pauseStream(target, rate)` — so cancel and pause are
observationally equivalent, and no distinct cancel-stream method is ever called. -/
theorem c10_cancel_is_pause :
    ∀ s : Stream, s.cancel = s.pause ∧ s.cancel.method = "pauseStream" :=
  fun _ => ⟨rfl, rfl⟩

set_option maxRecDepth 100000 in
/-- C1: a stream's identity is the keccak-256 digest of the tight-packed
concatenation of its 20-byte source address, 20-byte target address and 27-byte
big-endian `uint216` rate; on the fixture triple it reproduces the on-chain
reference digest `0xd634...263a`. -/
theorem c1_stream_identity :
    (∀ s : Stream,
      s.id = keccak256 (addressBytes s.source ++ addressBytes s.target ++ beBytes 27 s.rate)) ∧
    Stream.id ⟨"0xFEB4acf3df3cDEA7399794D0869ef76A6EfAff52",
        "0x908dcdb61189b56f5cb7b0c60d332e3ee18d9300", 192901234567901234⟩ =
      [0xd6, 0x34, 0xcf, 0x4e, 0xd2, 0x4c, 0xbb, 0x7c,
       0xe7, 0x3d, 0x07, 0x64, 0xbc, 0xd0, 0x06, 0x7c,
       0x7d, 0x31, 0xf9, 0x14, 0x38, 0x36, 0xce, 0x43,
       0x1f, 0xe8, 0xc8, 0x5e, 0x6f, 0x76, 0x26, 0x3a] :=
  ⟨fun _ => rfl, by decide⟩

/-- C8: `find_streams` with neither a source nor a target filter raises
`InvalidQuery` and leaves the cached stream state untouched — in particular no
refresh happens on that path. -/
theorem c8_find_streams_no_filter :
    ∀ (s : PoolState) (height : Nat) (fetch : Except Err (List ContractLog))
      (resolve : String → String),
      find_streams height fetch resolve none none s = (Except.error Err.invalidQuery, s) :=
  fun _ _ _ _ => rfl

/-- C9 is a unit-mismatch bug in `Pool.deposit`: the guard compares the raw
base-unit allowance against the *unscaled* token amount (`allowance < amount`)
instead of the deposited base-unit amount (`allowance < amount * scale`).  With
`scale = 10 ^ 18`, an allowance of 10 base units and a deposit of 1 token, the
allowance (10) is far below the deposited amount (`10 ^ 18` base units), yet no
`approve` call is issued: the call trace is just the allowance read followed by
the deposit. -/
theorem c9_deposit_allowance_unit_bug :
    Pool.deposit "0xpayer" "0xpool" (10 ^ 18) 10 ⟨1, 0⟩ =
      [PoolCall.allowanceOf "0xpayer" "0xpool", PoolCall.depositCall ⟨10 ^ 18, 0⟩] ∧
    (10 : ℚ) < (Dec.mk 1 0).toRat * 10 ^ 18 :=
  ⟨by decide, by norm_num [Dec.toRat]⟩

/-- Running the fold loop never raises and only appends the folded streams. -/
lemma foldLogsM_run (ls : List ContractLog) (s : PoolState) :
    foldLogsM ls s = (Except.ok (), ⟨s.logs, s.last_logs_block, s.streams ++ foldedStreams ls⟩) := by
  induction ls generalizing s with
  | nil => simp [foldLogsM, pureM, foldedStreams]
  | cons l ls ih =>
    by_cases h : l.name ∈ streamEventNames
    · simp [foldLogsM, bindM, appendStream, h, ih, foldedStreams, List.filter_cons]
    · simp [foldLogsM, bindM, pureM, h, ih, foldedStreams, List.filter_cons]

/-- How one `refresh` call runs, in each of its three cases. -/
lemma refresh_run (s : PoolState) (height : Nat) (fetch : Except Err (List ContractLog)) :
    (height ≤ s.last_logs_block ∧ refresh height fetch s = (Except.ok (), s)) ∨
    (s.last_logs_block < height ∧ ∃ e, fetch = Except.error e ∧
      refresh height fetch s = (Except.error e, s)) ∨
    (s.last_logs_block < height ∧ ∃ logs, fetch = Except.ok logs ∧
      refresh height fetch s =
        (Except.ok (), ⟨s.logs ++ logs, height + 1, s.streams ++ foldedStreams logs⟩)) := by
  by_cases hle : height ≤ s.last_logs_block
  · exact Or.inl ⟨hle, by simp [refresh, bindM, getCheckpoint, pureM, hle]⟩
  · cases fetch with
    | error e =>
      refine Or.inr (Or.inl ⟨by omega, e, rfl, ?_⟩)
      simp [refresh, bindM, getCheckpoint, runFetch, hle]
    | ok logs =>
      refine Or.inr (Or.inr ⟨by omega, logs, rfl, ?_⟩)
      simp [refresh, bindM, getCheckpoint, runFetch, setCheckpoint, extendLogs, hle,
        foldLogsM_run]

/-- C2: `refresh` is atomic with respect to the checkpoint: the only fallible step
is the event fetch, which is fully materialised before any cache mutation, and the
per-event fold is total; so on any failure the cache (checkpoint included) is
exactly as before the call, and on success with a non-empty range the checkpoint
moves to `head + 1` together with the full folded range. -/
theorem c2_refresh_atomic (s : PoolState) (height : Nat)
    (fetch : Except Err (List ContractLog)) :
    (∀ e, (refresh height fetch s).1 = Except.error e → (refresh height fetch s).2 = s) ∧
    ((refresh height fetch s).1 = Except.ok () →
      (height ≤ s.last_logs_block ∧ (refresh height fetch s).2 = s) ∨
      (∃ logs, fetch = Except.ok logs ∧ s.last_logs_block < height ∧
        (refresh height fetch s).2 =
          ⟨s.logs ++ logs, height + 1, s.streams ++ foldedStreams logs⟩)) := by
  rcases refresh_run s height fetch with ⟨hle, hrun⟩ | ⟨hlt, e, hf, hrun⟩ |
    ⟨hlt, logs, hf, hrun⟩ <;> rw [hrun]
  · exact ⟨fun e h => Except.noConfusion h, fun _ => Or.inl ⟨hle, rfl⟩⟩
  · exact ⟨fun e' _ => rfl, fun h => Except.noConfusion h⟩
  · exact ⟨fun e h => Except.noConfusion h, fun _ => Or.inr ⟨logs, hf, hlt, rfl⟩⟩

/-- C3: the checkpoint never decreases across a `refresh` call, and a successful
refresh that actually scanned (checkpoint below head) sets it to `head + 1`. -/
theorem c3_checkpoint_monotone (s : PoolState) (height : Nat)
    (fetch : Except Err (List ContractLog)) :
    s.last_logs_block ≤ (refresh height fetch s).2.last_logs_block ∧
    (s.last_logs_block < height → (refresh height fetch s).1 = Except.ok () →
      (refresh height fetch s).2.last_logs_block = height + 1) := by
  rcases refresh_run s height fetch with ⟨hle, hrun⟩ | ⟨hlt, e, hf, hrun⟩ |
    ⟨hlt, logs, hf, hrun⟩ <;> rw [hrun]
  · exact ⟨le_rfl, fun h _ => by omega⟩
  · exact ⟨le_rfl, fun _ h => Except.noConfusion h⟩
  · refine ⟨?_, fun _ _ => rfl⟩
    simp only []
    omega

/-- C4: `refresh` is a no-op whenever the checkpoint has reached the head, so a
second refresh at the same head right after a completed one changes nothing. -/
theorem c4_refresh_idempotent (s : PoolState) (height : Nat)
    (fetch fetch' : Except Err (List ContractLog)) :
    (height ≤ s.last_logs_block → refresh height fetch s = (Except.ok (), s)) ∧
    ((refresh height fetch s).1 = Except.ok () →
      refresh height fetch' ((refresh height fetch s).2) =
        (Except.ok (), (refresh height fetch s).2)) := by
  have noop : ∀ (s' : PoolState) (f : Except Err (List ContractLog)),
      height ≤ s'.last_logs_block → refresh height f s' = (Except.ok (), s') := by
    intro s' f h
    rcases refresh_run s' height f with ⟨_, hrun⟩ | ⟨hlt, _, _, _⟩ | ⟨hlt, _, _, _⟩
    · exact hrun
    · omega
    · omega
  refine ⟨noop s fetch, fun hok => ?_⟩
  rcases refresh_run s height fetch with ⟨hle, hrun⟩ | ⟨hlt, e, hf, hrun⟩ |
    ⟨hlt, logs, hf, hrun⟩ <;> rw [hrun]
  · exact noop s fetch' hle
  · rw [hrun] at hok; cases hok
  · exact noop _ fetch' (by simp)

/-- A sample pool cache and stream-creation log used to instantiate the
hypotheses of the cache theorems at concrete inputs. -/
def exState : PoolState := ⟨[], 100, []⟩

/-- A sample decoded `StreamCreated` log. -/
def exLog : ContractLog := ⟨"StreamCreated", "0xaaaa", "0xbbbb", 7⟩

/-- Witness for C2: at head 105 with checkpoint 100, a failed fetch leaves the
state exactly as it was. -/
theorem c2_refresh_atomic_witness :
    (refresh 105 (Except.error (Err.fetchFailed 3)) exState).2 = exState :=
  (c2_refresh_atomic exState 105 (Except.error (Err.fetchFailed 3))).1
    (Err.fetchFailed 3) (by decide)

/-- Witness for C3: a successful scan from checkpoint 100 to head 105 sets the
checkpoint to 106. -/
theorem c3_checkpoint_monotone_witness :
    (refresh 105 (Except.ok [exLog]) exState).2.last_logs_block = 105 + 1 :=
  (c3_checkpoint_monotone exState 105 (Except.ok [exLog])).2 (by decide) (by decide)

/-- Witness for C4: after a successful refresh to head 105, refreshing again at
head 105 returns the state unchanged. -/
theorem c4_refresh_idempotent_witness :
    refresh 105 (Except.ok []) ((refresh 105 (Except.ok [exLog]) exState).2) =
      (Except.ok (), (refresh 105 (Except.ok [exLog]) exState).2) :=
  (c4_refresh_idempotent exState 105 (Except.ok [exLog]) (Except.ok [])).2 (by decide)

/-- The table values, by evaluation. -/
lemma secondsIn_day : secondsIn "day" = 86400 := rfl

lemma secondsIn_week : secondsIn "week" = 604800 := rfl

lemma secondsIn_month : secondsIn "month" = 2592000 := rfl

lemma secondsIn_year : secondsIn "year" = 31104000 := rfl

/-- Truncation toward zero agrees with rounding down on non-negative values. -/
lemma intTrunc_of_nonneg {q : ℚ} (h : 0 ≤ q) : intTrunc q = ⌊q⌋ :=
  if_neg (not_lt.mpr h)

/-- Truncation toward zero on non-positive values is the negated floor of the
negation (the ceiling). -/
lemma intTrunc_of_nonpos {q : ℚ} (h : q ≤ 0) : intTrunc q = -⌊-q⌋ := by
  rcases lt_or_eq_of_le h with h' | h'
  · exact if_pos h'
  · subst h'
    simp [intTrunc]

/-- The floor of a natural number divided by a power of ten is the natural
division. -/
lemma floor_cast_div_pow (n s : Nat) : ⌊(n : ℚ) / 10 ^ s⌋ = ((n / 10 ^ s : Nat) : Int) := by
  have h0 : (0 : ℚ) ≤ (n : ℚ) / 10 ^ s := by positivity
  rw [← Int.natCast_floor_eq_floor h0]
  exact_mod_cast Nat.floor_div_eq_div (α := ℚ) n (10 ^ s)

/-- Truncating a non-negative scaled natural is its natural division. -/
lemma intTrunc_cast_div_pow (n s : Nat) :
    intTrunc ((n : ℚ) / 10 ^ s) = ((n / 10 ^ s : Nat) : Int) := by
  rw [intTrunc, if_neg (not_lt.mpr (by positivity)), floor_cast_div_pow]

/-- Truncation toward zero commutes with negation. -/
lemma intTrunc_neg (q : ℚ) : intTrunc (-q) = -intTrunc q := by
  rcases lt_trichotomy q 0 with h | h | h
  · rw [intTrunc, if_neg (not_lt.mpr (by linarith)), intTrunc, if_pos h, neg_neg]
  · subst h
    simp [intTrunc]
  · rw [intTrunc, if_pos (by linarith), intTrunc, if_neg (not_lt.mpr h.le), neg_neg]

/-- `int()` on a stored `Decimal`, computed on the coefficient, is the truncation
toward zero of the denoted rational. -/
lemma Dec.truncInt_eq (d : Dec) : d.truncInt = intTrunc d.toRat := by
  obtain ⟨m, s⟩ := d
  cases m with
  | ofNat n =>
    cases n with
    | zero => simp [Dec.truncInt, Dec.toRat, intTrunc]
    | succ k =>
      have hcast : ((Int.ofNat (k + 1) : Int) : ℚ) = ((k + 1 : Nat) : ℚ) := by
        rw [Int.ofNat_eq_natCast, Int.cast_natCast]
      simp only [Dec.truncInt, Dec.toRat, hcast, intTrunc_cast_div_pow]
      simp [Int.sign, Int.natAbs]
  | negSucc n =>
    have hcast : ((Int.negSucc n : Int) : ℚ) / 10 ^ s = -(((n + 1 : Nat) : ℚ) / 10 ^ s) := by
      rw [Int.cast_negSucc]
      push_cast
      ring
    simp only [Dec.truncInt, Dec.toRat, hcast, intTrunc_neg, intTrunc_cast_div_pow]
    simp [Int.sign, Int.natAbs]

/-- C5 (amended): parsing an integer `r` yields `rawValue = r`, period `"month"`,
and `.per_sec` reads back exactly `r` (also for the falsy raw value 0, whose
computed fallback is again 0); the amount equals the exact
`r * secondsInMonth / PRECISION` whenever the 28-significant-digit context
rounding leaves the product `r * secondsInMonth` and the subsequent division by
`PRECISION` unchanged (the division by `10 ^ 20` is in fact always value-exact;
the product is exact e.g. for every `|r| ≤ 3 * 10 ^ 21`). -/
theorem c5_parse_int_round_trip (r : Int) :
    (Rate.parse_int r).raw_value = some r ∧
    (Rate.parse_int r).period = "month" ∧
    (roundSigInt (r * (secondsIn "month" : Int)) = r * (secondsIn "month" : Int) →
      ((((Dec.mk r 0).mulInt (secondsIn "month" : Int)).ctxRound).divCtx (10 ^ 20)).toRat =
        (((Dec.mk r 0).mulInt (secondsIn "month" : Int)).ctxRound).toRat / 10 ^ 20 →
      (Rate.parse_int r).amount.toRat = (r : ℚ) * (secondsIn "month" : ℚ) / PRECISION) ∧
    (Rate.parse_int r).per_sec = r := by
  refine ⟨rfl, rfl, ?_, ?_⟩
  · intro hmul hdiv
    have hctx : ((Dec.mk r 0).mulInt (secondsIn "month" : Int)).ctxRound =
        Dec.mk (r * (secondsIn "month" : Int)) 0 := by
      simp [Dec.ctxRound, Dec.mulInt, hmul]
    show ((((Dec.mk r 0).mulInt (secondsIn "month" : Int)).ctxRound).divCtx (10 ^ 20)).toRat = _
    rw [hdiv, hctx]
    simp only [Dec.toRat, PRECISION]
    push_cast
    ring
  · by_cases h : r = 0
    · subst h
      decide
    · simp [Rate.per_sec, Rate.parse_int, h]

/-- Counterexample to the unamended C5 amount clause: for `r = 10 ^ 25 + 1`, the
exact product `r * 2592000` has 32 significant digits, so `Decimal.__mul__`
rounds it (half-even) to `2592000000000000000000000259 * 10 ^ 4`, and the amount
stored by the program is `259200000000.0000000000000259`, not the exact
`r * secondsInMonth / PRECISION` (which ends in `...592`); verified against
CPython's `decimal` module. -/
theorem c5_amount_rounding_counterexample :
    (Rate.parse_int (10 ^ 25 + 1)).amount = ⟨2592000000000000000000000259, 16⟩ ∧
    (Rate.parse_int (10 ^ 25 + 1)).amount.toRat ≠
      ((10 ^ 25 + 1 : Int) : ℚ) * (secondsIn "month" : ℚ) / PRECISION := by
  have h1 : (Rate.parse_int (10 ^ 25 + 1)).amount = ⟨2592000000000000000000000259, 16⟩ := by
    decide
  refine ⟨h1, ?_⟩
  rw [h1, secondsIn_month]
  norm_num [Dec.toRat, PRECISION]

/-- Witness for C5: at `r = 5` the context arithmetic is exact and the amount is
exactly `5 * secondsInMonth / PRECISION`. -/
theorem c5_parse_int_round_trip_witness :
    (Rate.parse_int 5).amount.toRat = (5 : ℚ) * (secondsIn "month" : ℚ) / PRECISION :=
  (c5_parse_int_round_trip 5).2.2.1 (by decide) (by
    have h1 : ((((Dec.mk 5 0).mulInt (secondsIn "month" : Int)).ctxRound).divCtx (10 ^ 20)) =
        ⟨1296000000000000000000000000, 40⟩ := by decide
    have h2 : (((Dec.mk 5 0).mulInt (secondsIn "month" : Int)).ctxRound) = ⟨12960000, 0⟩ := by
      decide
    rw [h1, h2]
    norm_num [Dec.toRat])

/-- Rates with no raw value fall through to the computed branch of `per_sec`. -/
lemma per_sec_of_no_raw (r : Rate) (hraw : r.raw_value = none) :
    r.per_sec = r.computed_per_sec := by
  simp [Rate.per_sec, hraw]

/-- C6 (amended): for every rate without a raw value whose context arithmetic is
exact — the 28-significant-digit rounding leaves the product `amount * PRECISION`
and its quotient by `secondsIn(period)` unchanged — `per_sec` is the exact
mathematical value `amount * PRECISION / secondsIn(period)` truncated to an
integer with no precision loss: rounded down (floor) on non-negative amounts, and
truncated toward zero on negative ones. -/
theorem c6_per_sec_exact_truncation (r : Rate) (hraw : r.raw_value = none)
    (hmul : roundSigInt (r.amount.num * 10 ^ 20) = r.amount.num * 10 ^ 20)
    (hdiv : (((r.amount.mulInt (10 ^ 20)).ctxRound).divCtx (secondsIn r.period)).toRat =
      ((r.amount.mulInt (10 ^ 20)).ctxRound).toRat / (secondsIn r.period : ℚ)) :
    (0 ≤ r.amount.toRat →
      r.per_sec = ⌊r.amount.toRat * PRECISION / (secondsIn r.period : ℚ)⌋) ∧
    (r.amount.toRat < 0 →
      r.per_sec = -⌊-(r.amount.toRat * PRECISION / (secondsIn r.period : ℚ))⌋) := by
  have hctx : (r.amount.mulInt (10 ^ 20)).ctxRound = r.amount.mulInt (10 ^ 20) := by
    simp only [Dec.ctxRound, Dec.mulInt, hmul]
  have hmulval : (r.amount.mulInt (10 ^ 20)).toRat = r.amount.toRat * PRECISION := by
    simp only [Dec.mulInt, Dec.toRat, PRECISION]
    push_cast
    ring
  have hps : r.per_sec = intTrunc (r.amount.toRat * PRECISION / (secondsIn r.period : ℚ)) := by
    rw [per_sec_of_no_raw r hraw]
    simp only [Rate.computed_per_sec]
    rw [Dec.truncInt_eq, hdiv, hctx, hmulval]
  have hP : (0 : ℚ) ≤ PRECISION := by norm_num [PRECISION]
  have hS : (0 : ℚ) ≤ ((secondsIn r.period : Nat) : ℚ) := Nat.cast_nonneg _
  constructor
  · intro ha
    rw [hps, intTrunc_of_nonneg]
    exact div_nonneg (mul_nonneg ha hP) hS
  · intro ha
    rw [hps, intTrunc_of_nonpos]
    rw [div_eq_mul_inv]
    exact mul_nonpos_of_nonpos_of_nonneg (mul_nonpos_of_nonpos_of_nonneg ha.le hP)
      (inv_nonneg.mpr hS)

/-- A sample rate (864 tokens per day) whose context arithmetic is exact. -/
def exRate : Rate := ⟨⟨864, 0⟩, "day", none, none⟩

/-- Witness for C6: 864 tokens per day has exact context arithmetic and `per_sec`
is the floor of its exact per-second value (`10 ^ 18`). -/
theorem c6_per_sec_exact_truncation_witness :
    exRate.per_sec = ⌊exRate.amount.toRat * PRECISION / (secondsIn exRate.period : ℚ)⌋ :=
  (c6_per_sec_exact_truncation exRate rfl (by decide) (by
      have h1 : ((exRate.amount.mulInt (10 ^ 20)).ctxRound).divCtx (secondsIn exRate.period) =
          ⟨1000000000000000000000000000, 9⟩ := by decide
      have h2 : (exRate.amount.mulInt (10 ^ 20)).ctxRound = ⟨86400000000000000000000, 0⟩ := by
        decide
      rw [h1, h2]
      norm_num [Dec.toRat, exRate, secondsIn_day])).1
    (by norm_num [exRate, Dec.toRat])

/-- The reachable rate on which the unamended C6 fails: the amount parsed from
`"95039999.99999999999999999999/day"`. -/
def cexRate : Rate := ⟨⟨9503999999999999999999999999, 20⟩, "day", none, none⟩

/-- Counterexample to the unamended C6: for the parseable amount
`95039999.99999999999999999999` per day, the context division rounds the exact
quotient `109999999999999999999999.9999988...` half-even up to
`110000000000000000000000.0000`, so the program's `per_sec` exceeds the exact
truncation (here equal to the floor, the value being positive) by one; verified
against CPython's `decimal` module. -/
theorem c6_precision_loss_counterexample :
    Rate.parse_str "95039999.99999999999999999999/day" = Except.ok cexRate ∧
    cexRate.raw_value = none ∧
    cexRate.per_sec = 110000000000000000000000 ∧
    ⌊cexRate.amount.toRat * PRECISION / (secondsIn cexRate.period : ℚ)⌋ =
      109999999999999999999999 ∧
    cexRate.per_sec ≠ ⌊cexRate.amount.toRat * PRECISION / (secondsIn cexRate.period : ℚ)⌋ := by
  have hps : cexRate.per_sec = 110000000000000000000000 := by decide
  have hv : cexRate.amount.toRat * PRECISION / (secondsIn cexRate.period : ℚ) =
      (9503999999999999999999999999 : ℚ) / 86400 := by
    norm_num [cexRate, Dec.toRat, PRECISION, secondsIn_day]
  have hfl : ⌊cexRate.amount.toRat * PRECISION / (secondsIn cexRate.period : ℚ)⌋ =
      109999999999999999999999 := by
    rw [hv, Int.floor_eq_iff]
    constructor
    · norm_num
    · norm_num
  exact ⟨by decide, rfl, hps, hfl, by rw [hps, hfl]; decide⟩

/-- The rate string parses and its `per_sec` is strictly positive. -/
def parses_with_positive_rate (s : String) : Prop :=
  ∃ r, Rate.parse_str s = Except.ok r ∧ 0 < r.per_sec

/-- C7: on amount sides that are ASCII and not `Decimal` special-value spellings
(the domain where the embedded decimal parser coincides with CPython's
constructor; outside it `Decimal` also accepts `NaN`/`Infinity` forms and
non-ASCII digits), a string rate fails to parse (with the spec's `InvalidRate`)
exactly when the period segment after `/` is not one of the four recognised
periods or the amount side fails decimal parsing after `,`/`_` normalisation;
and the four fixture strings all parse with a strictly positive `per_sec`. -/
theorem c7_parse_str_errors :
    (∀ s : String, amount_side_tame s = true →
      (Rate.parse_str s = Except.error RateError.invalidRate ↔
        ¬(period_recognized s = true ∧ amount_parses s = true))) ∧
    parses_with_positive_rate "1000000/year" ∧
    parses_with_positive_rate "100,000 UNI/day" ∧
    parses_with_positive_rate "10_000 USDC/month" ∧
    parses_with_positive_rate "10 YFI/year" := by
  refine ⟨?_, ?_, ?_, ?_, ?_⟩
  · intro s _tame
    rcases h : splitOnChar '/' s.data with _ | ⟨a, _ | ⟨p, _ | ⟨c, t⟩⟩⟩
    · simp [Rate.parse_str, period_recognized, amount_parses, h]
    · simp [Rate.parse_str, period_recognized, amount_parses, h]
    · cases hl : (DURATION_TO_SECONDS.lookup (String.mk p)).isSome
      · simp [Rate.parse_str, period_recognized, amount_parses, h, hl]
      · cases hd : parseDec ((splitAmountToken a).1.map fun c => if c = ',' then '_' else c) with
        | none => simp [Rate.parse_str, period_recognized, amount_parses, h, hl, hd]
        | some d => simp [Rate.parse_str, period_recognized, amount_parses, h, hl, hd]
    · simp [Rate.parse_str, period_recognized, amount_parses, h]
  · exact ⟨⟨⟨1000000, 0⟩, "year", none, none⟩, by decide, by decide⟩
  · exact ⟨⟨⟨100000, 0⟩, "day", some "UNI", none⟩, by decide, by decide⟩
  · exact ⟨⟨⟨10000, 0⟩, "month", some "USDC", none⟩, by decide, by decide⟩
  · exact ⟨⟨⟨10, 0⟩, "year", some "YFI", none⟩, by decide, by decide⟩

/-- Witness for C7: the failure characterisation instantiated at the tame string
`"10/decade"` (whose period is unrecognised). -/
theorem c7_parse_str_errors_witness :
    Rate.parse_str "10/decade" = Except.error RateError.invalidRate ↔
      ¬(period_recognized "10/decade" = true ∧ amount_parses "10/decade" = true) :=
  c7_parse_str_errors.1 "10/decade" (by decide)

end LlamaPay
